import Mathlib

/-!
# Verification of the NSIDC ICESat-2 sync engine

A shallow embedding, in Lean 4, of the selective incremental mirroring
engine of `nsidc_icesat2_sync.py` (repository read-ICESat-2), together
with theorems settling the specification claims about it.

The embedding translates the Python source:
* the per-file transfer decision of `http_pull_file` (lines 219-253),
* the compiled filename and subdirectory matchers (lines 150-167, 179-180),
  modelled by executable parsers with the exact semantics of the patterns
  the source interpolates (including start-only anchoring of `re.match`,
  the unescaped `.` metacharacter, and alternation over padded numbers),
* the last-modified parsing `strptime`/`timegm` pipeline (lines 204-205),
* the planner loops over products, subdirectories and files, with their
  filesystem effects (directory creation, chunked writes, `utime` fixup)
  and Python exception-propagation semantics.

Timestamps are modelled as integers (epoch seconds); sub-second precision
of `st_mtime` is immaterial to every claim considered.  Filesystem state
is an explicit value: a list of created directories plus an association
list from file names to modification times.
-/

/-! ## The per-file transfer decision (http_pull_file, lines 219-253) -/

/-- Spec-level transfer decision enum. -/
inductive TransferDecision where
  | NEW
  | STALE
  | UP_TO_DATE
  deriving Repr, DecidableEq

open TransferDecision

/-- Decision as the specification words it: NEW when no local file exists,
STALE when the local file exists and its modification time is strictly
less than the remote timestamp, UP_TO_DATE otherwise. -/
def decisionOf (localMtime : Option Int) (remoteMtime : Int) : TransferDecision :=
  match localMtime with
  | none => NEW
  | some m => if m < remoteMtime then STALE else UP_TO_DATE

/-- Observable outcome of one `http_pull_file` call. -/
structure PullOutcome where
  /-- the two report lines were printed -/
  reported : Bool
  /-- the OVERWRITE annotation that would be printed -/
  tag : String
  /-- the live copy branch executed (bytes written, utime, chmod) -/
  wrote : Bool
  /-- local file modification time afterwards -/
  state : Option Int
  deriving Repr, DecidableEq

/-- Translation of `http_pull_file` (source lines 219-253).  The local file
is abstracted by its modification time (`none` = absent).  On the live
branch the remote body is streamed to the local file and `os.utime` then
sets the local modification time to `remote_mtime`. -/
def http_pull_file (localMtime : Option Int) (remote_mtime : Int)
    (LIST CLOBBER : Bool) : PullOutcome :=
  let td : Bool × String :=
    match localMtime with
    | some local_mtime =>
        if remote_mtime > local_mtime then (true, " (overwrite)")
        else (false, " (clobber)")
    | none => (true, " (new)")
  if td.1 || CLOBBER then
    if LIST then ⟨true, td.2, false, localMtime⟩
    else ⟨true, td.2, true, some remote_mtime⟩
  else ⟨false, td.2, false, localMtime⟩

/-- An interrupted live transfer (source lines 243-253): the `with open`
block has created and partially written the local file, the exception
propagates before the `os.utime` fixup runs, and the partial file is not
removed.  The filesystem therefore stamps the file with the wall-clock
time of the write, `wallClock`. -/
def http_pull_file_interrupted (localMtime : Option Int) (remote_mtime : Int)
    (CLOBBER : Bool) (wallClock : Int) : Option Int :=
  let td : Bool × String :=
    match localMtime with
    | some local_mtime =>
        if remote_mtime > local_mtime then (true, " (overwrite)")
        else (false, " (clobber)")
    | none => (true, " (new)")
  if td.1 || CLOBBER then some wallClock
  else localMtime

/-! ## Filesystem state and the sync loops (nsidc_icesat2_sync) -/

/-- Lookup of a file's modification time in the association-list model of
the local filesystem. -/
def lookupMt (n : String) : List (String × Int) → Option Int
  | [] => none
  | (k, v) :: rest => if k = n then some v else lookupMt n rest

/-- Record a file's modification time in the filesystem model. -/
def setMt (n : String) (v : Int) : List (String × Int) → List (String × Int)
  | [] => [(n, v)]
  | (k, w) :: rest => if k = n then (n, v) :: rest else (k, w) :: setMt n v rest

/-- The per-subdirectory file loop (source lines 199-208): for each
matched remote file, `http_pull_file` is invoked against the local state.
Returns the final filesystem map and the names reported as transfers, in
listing order. -/
def syncFiles (LIST CLOBBER : Bool) (mt : List (String × Int)) :
    List (String × Int) → List (String × Int) × List String
  | [] => (mt, [])
  | (name, remote) :: files =>
    let out := http_pull_file (lookupMt name mt) remote LIST CLOBBER
    let mt' := if out.wrote then setMt name remote mt else mt
    let res := syncFiles LIST CLOBBER mt' files
    (res.1, (if out.reported then [name] else []) ++ res.2)

/-- Local filesystem state: created directories and file mtimes. -/
structure FS where
  dirs : List String
  mt : List (String × Int)
  deriving Repr, DecidableEq

/-- Recursive directory creation, idempotent (source lines 188-189:
os.makedirs if the path does not exist). -/
def makedirs (d : String) (fs : FS) : FS :=
  if fs.dirs.contains d then fs else { fs with dirs := d :: fs.dirs }

/-- One subdirectory iteration of `nsidc_icesat2_sync` (source lines
186-208): the local directory is created first, unconditionally — the
list-only flag is consulted only inside `http_pull_file` — and then each
matched file is pulled. -/
def nsidc_sync_subdir (LIST CLOBBER : Bool) (dir : String)
    (files : List (String × Int)) (fs : FS) : FS × List String :=
  let fs1 := makedirs dir fs
  let res := syncFiles LIST CLOBBER fs1.mt files
  ({ fs1 with mt := res.1 }, res.2)

/-- The product loop of `nsidc_icesat2_sync` (source lines 170-210) with
Python exception semantics: the body fetches and parses the product's
listing (lines 177-183); there is no try/except, so a raised error
propagates and ends the loop.  Returns the products processed (with their
listings) before the first failure, and the propagated error if any. -/
def runProducts (fetch : String → Except String (List String)) :
    List String → List (String × List String) × Option String
  | [] => ([], none)
  | p :: ps =>
    match fetch p with
    | Except.error e => ([], some e)
    | Except.ok listing =>
      let res := runProducts fetch ps
      ((p, listing) :: res.1, res.2)

/-- Concrete listing oracle for the partial-failure scenario: the ATL07
listing fetch raises, every other product's listing is available. -/
def fetchCex : String → Except String (List String) :=
  fun p => if p = "ATL07" then Except.error "ListingFetchError"
           else Except.ok ["2018.10.14"]

/-! ## The compiled filename matcher R1 (source lines 150-155, 179-180)

The source interpolates zero-padded numbers into the template

  p then an underscore, 14 digits, an underscore, the track alternation,
  2 digits, the granule alternation, an underscore, RELEASE, an
  underscore, the version alternation, a lazy group, one arbitrary
  character (an unescaped dot), and the suffix: the literal h5, or a lazy
  group when AUXILIARY is set.

and tests filenames with re.match, which anchors at the start only.  The
matcher below implements exactly that acceptance relation: each regex
piece becomes one parsing step, alternation is an existential over the
padded alternatives, and the tail condition captures the lazy group, the
any-character dot and the suffix under prefix matching. -/

/-- The digit character for n < 10. -/
def digitChar (n : Nat) : Char := Char.ofNat (48 + n)

/-- Decimal digits of n, most significant first (fuel-structured so that
the kernel can evaluate it); used only through `pad`. -/
def natDigitsAux : Nat → Nat → List Char → List Char
  | 0, _, acc => acc
  | fuel + 1, n, acc =>
    if n = 0 then acc
    else natDigitsAux fuel (n / 10) (digitChar (n % 10) :: acc)

/-- Python format {0:0wd}: decimal digits of n, left-padded with zeros to
width w (longer numbers keep all their digits). -/
def pad (w n : Nat) : List Char :=
  let d := if n = 0 then ['0'] else natDigitsAux n n []
  List.replicate (w - d.length) '0' ++ d

/-- Strip an exact literal from the front of s. -/
def stripLit : List Char → List Char → Option (List Char)
  | [], s => some s
  | _ :: _, [] => none
  | c :: lit, x :: s => if c = x then stripLit lit s else none

/-- Strip exactly k digit characters from the front of s. -/
def takeDigits : Nat → List Char → Option (List Char)
  | 0, s => some s
  | _ + 1, [] => none
  | k + 1, c :: s => if c.isDigit then takeDigits k s else none

/-- Continue a Boolean parse after an optional step. -/
def obind (o : Option (List Char)) (k : List Char → Bool) : Bool :=
  match o with
  | some r => k r
  | none => false

/-- Regex alternation with backtracking: some alternative strips and the
continuation accepts the remainder. -/
def anyAlt (alts : List (List Char)) (k : List Char → Bool) (s : List Char) : Bool :=
  alts.any (fun a => obind (stripLit a s) k)

/-- Does the list start with the two characters h5? -/
def startsH5 : List Char → Bool
  | a :: b :: _ => a = 'h' && b = '5'
  | _ => false

/-- Does h5 occur anywhere in the list? -/
def hasH5 : List Char → Bool
  | [] => false
  | c :: r => startsH5 (c :: r) || hasH5 r

/-- The tail of the pattern after the version group: a lazy group, one
arbitrary character (the unescaped dot) and the suffix, under re.match
prefix semantics.  With AUXILIARY the suffix is a lazy group, so any
nonempty remainder is accepted; without it the literal h5 must occur at
some position at least one character in. -/
def suffixMatch (AUXILIARY : Bool) (r : List Char) : Bool :=
  if AUXILIARY then decide (1 ≤ r.length)
  else
    match r with
    | [] => false
    | _ :: r2 => hasH5 r2

/-- The compiled per-product file matcher R1 under re.match (source lines
154-155 and 179-180), for product code p, requested TRACKS, GRANULES and
VERSIONS, release string RELEASE and the AUXILIARY toggle. -/
def fileMatch (p : List Char) (TRACKS GRANULES VERSIONS : List Nat)
    (RELEASE : List Char) (AUXILIARY : Bool) (f : List Char) : Bool :=
  obind (stripLit (p ++ ['_']) f) (fun s1 =>
  obind (takeDigits 14 s1) (fun s2 =>
  obind (stripLit ['_'] s2) (fun s3 =>
  anyAlt (TRACKS.map (pad 4)) (fun s4 =>
    obind (takeDigits 2 s4) (fun s5 =>
    anyAlt (GRANULES.map (pad 2)) (fun s6 =>
      obind (stripLit ('_' :: (RELEASE ++ ['_'])) s6) (fun s7 =>
      anyAlt (VERSIONS.map (pad 2)) (fun s8 =>
        suffixMatch AUXILIARY s8) s7)) s5)) s3)))

/-- Acceptance by the matcher of some requested product (the loop builds
one R1 per product code in PRODUCTS). -/
def anyProductMatch (PRODUCTS : List (List Char)) (TRACKS GRANULES VERSIONS : List Nat)
    (RELEASE : List Char) (AUXILIARY : Bool) (f : List Char) : Bool :=
  PRODUCTS.any (fun p => fileMatch p TRACKS GRANULES VERSIONS RELEASE AUXILIARY f)

/-- What the claim says the file matcher accepts (auxiliary off): the
whole string decodes to product, 14-digit timestamp, requested track, a
2-digit cycle, requested granule, the requested release, requested
version, an optional descriptor, and the literal suffix .h5 ending the
string. -/
def FileSpec (p : List Char) (TRACKS GRANULES VERSIONS : List Nat)
    (RELEASE : List Char) (f : List Char) : Prop :=
  ∃ ts cyc desc : List Char, ∃ t g v : Nat,
    t ∈ TRACKS ∧ g ∈ GRANULES ∧ v ∈ VERSIONS ∧
    ts.length = 14 ∧ (∀ c ∈ ts, c.isDigit = true) ∧
    cyc.length = 2 ∧ (∀ c ∈ cyc, c.isDigit = true) ∧
    f = p ++ ['_'] ++ ts ++ ['_'] ++ pad 4 t ++ cyc ++ pad 2 g ++ ['_'] ++
      RELEASE ++ ['_'] ++ pad 2 v ++ desc ++ ['.', 'h', '5']

/-- What the matcher actually accepts (auxiliary off): the same prefix
decode, but anchored at the start only — after the version field at least
one character of any kind (the lazy descriptor group plus the unescaped
dot), then the literal h5, then anything at all. -/
def FileLoose (p : List Char) (TRACKS GRANULES VERSIONS : List Nat)
    (RELEASE : List Char) (f : List Char) : Prop :=
  ∃ ts cyc desc rest : List Char, ∃ ch : Char, ∃ t g v : Nat,
    t ∈ TRACKS ∧ g ∈ GRANULES ∧ v ∈ VERSIONS ∧
    ts.length = 14 ∧ (∀ c ∈ ts, c.isDigit = true) ∧
    cyc.length = 2 ∧ (∀ c ∈ cyc, c.isDigit = true) ∧
    f = p ++ ['_'] ++ ts ++ ['_'] ++ pad 4 t ++ cyc ++ pad 2 g ++ ['_'] ++
      RELEASE ++ ['_'] ++ pad 2 v ++ ch :: (desc ++ 'h' :: '5' :: rest)

/-! ## The subdirectory matcher R2 (source lines 158-167) -/

/-- One pattern character against one input character: in the compiled
patterns the dot is the regex any-character; the date-like names and
date groups the source interpolates contain no other metacharacter, so
every other character matches literally. -/
def patChar (pc c : Char) : Bool := pc = '.' || c = pc

/-- Match a pattern (interpolated name) against a prefix of the input. -/
def patStrip : List Char → List Char → Option (List Char)
  | [], s => some s
  | _ :: _, [] => none
  | pc :: ps, c :: s => if patChar pc c then patStrip ps s else none

/-- The explicit-subdirectory matcher (source line 160): the alternation
of the supplied names, unescaped, under re.match. -/
def subdirMatchExplicit (SUBDIRECTORY : List (List Char)) (sd : List Char) : Bool :=
  SUBDIRECTORY.any (fun n => (patStrip n sd).isSome)

/-- The default subdirectory pattern (source line 167) under re.match: a
digit group, any character, a digit group, any character, a digit group,
as a prefix.  State false k s matches that sequence with k separators
still to come; state true k s continues after at least one digit of the
current group. -/
def dseq : Bool → Nat → List Char → Bool
  | false, _, [] => false
  | true, k, [] => decide (k = 0)
  | false, k, c :: s => c.isDigit && dseq true k s
  | true, 0, _ :: _ => true
  | true, k + 1, c :: s => (c.isDigit && dseq true (k + 1) s) || dseq false k s

/-- The default subdirectory matcher R2 with neither years nor explicit
names supplied. -/
def subdirMatchDefault (sd : List Char) : Bool := dseq false 2 sd

/-- What the claim says the default matcher accepts: digits, a dot,
digits, a dot, digits, at the start of the name. -/
def subdirDotShape (sd : List Char) : Prop :=
  ∃ a b c rest : List Char,
    sd = a ++ '.' :: (b ++ '.' :: (c ++ rest)) ∧
    a ≠ [] ∧ (∀ ch ∈ a, ch.isDigit = true) ∧
    b ≠ [] ∧ (∀ ch ∈ b, ch.isDigit = true) ∧
    c ≠ [] ∧ (∀ ch ∈ c, ch.isDigit = true)

/-! ## The file-row planner indexing (source lines 194-205) -/

/-- The matched file rows: indices i of colnames whose entry matches R1
(source line 197).  The planner then reads collastmod at the same index
i, although collastmod was extracted independently. -/
def matchedIndices (R1 : List Char → Bool) (colnames : List (List Char)) : List Nat :=
  (List.range colnames.length).filter
    (fun i =>
      match colnames.get? i with
      | some f => R1 f
      | none => false)

/-! ## Last-modified parsing (source lines 204-205)

time.strptime with format %Y-%m-%d %H:%M after rstrip, followed by
calendar.timegm, which interprets the struct as UTC and returns Unix
epoch seconds.  The arithmetic below is the standard proleptic-Gregorian
epoch computation; the Nat subtraction truncates for years before 1970,
which no claim exercises. -/

/-- Python str.rstrip character class (whitespace). -/
def isWSChar (c : Char) : Bool := c = ' ' || c = '\t' || c = '\n' || c = '\r'

/-- Remove trailing whitespace. -/
def rstrip (s : List Char) : List Char := (s.reverse.dropWhile isWSChar).reverse

/-- Numeric value of a digit character. -/
def digitVal (c : Char) : Nat := c.toNat - 48

/-- Gregorian leap-year test. -/
def isLeap (y : Nat) : Bool := y % 4 = 0 && (y % 100 ≠ 0 || y % 400 = 0)

/-- Leap years in the range from year 1 to year y inclusive. -/
def leapsUpTo (y : Nat) : Nat := y / 4 - y / 100 + y / 400

/-- Days before the first of the month in a non-leap year. -/
def monthOffset : Nat → Nat
  | 1 => 0 | 2 => 31 | 3 => 59 | 4 => 90 | 5 => 120 | 6 => 151
  | 7 => 181 | 8 => 212 | 9 => 243 | 10 => 273 | 11 => 304 | 12 => 334
  | _ => 0

/-- calendar.timegm of a struct_time (Y, M, D, H, Mi, 0): Unix epoch
seconds of the UTC time, for years from 1970 on. -/
def utcEpoch (Y M D H Mi : Nat) : Nat :=
  let days := 365 * (Y - 1970) + (leapsUpTo (Y - 1) - leapsUpTo 1969)
    + monthOffset M + (if 2 < M then (if isLeap Y then 1 else 0) else 0) + (D - 1)
  days * 86400 + H * 3600 + Mi * 60

/-- strptime(text, %Y-%m-%d %H:%M) followed by calendar.timegm: the text
must be 4 digits, a hyphen, 2 digits, a hyphen, 2 digits, a space, 2
digits, a colon, 2 digits, with the fields in strptime ranges; the result
is the UTC epoch seconds. -/
def parseLastModCore (s : List Char) : Option Nat :=
  match s with
  | [y1, y2, y3, y4, '-', m1, m2, '-', d1, d2, ' ', h1, h2, ':', n1, n2] =>
    if y1.isDigit && y2.isDigit && y3.isDigit && y4.isDigit &&
       m1.isDigit && m2.isDigit && d1.isDigit && d2.isDigit &&
       h1.isDigit && h2.isDigit && n1.isDigit && n2.isDigit then
      let Y := ((digitVal y1 * 10 + digitVal y2) * 10 + digitVal y3) * 10 + digitVal y4
      let M := digitVal m1 * 10 + digitVal m2
      let D := digitVal d1 * 10 + digitVal d2
      let H := digitVal h1 * 10 + digitVal h2
      let Mi := digitVal n1 * 10 + digitVal n2
      if 1 ≤ M ∧ M ≤ 12 ∧ 1 ≤ D ∧ D ≤ 31 ∧ H ≤ 23 ∧ Mi ≤ 59 then
        some (utcEpoch Y M D H Mi)
      else none
    else none
  | _ => none

/-- The source pipeline at lines 204-205: rstrip, then strptime with the
fixed format, then calendar.timegm. -/
def parseLastMod (s : List Char) : Option Nat :=
  parseLastModCore (rstrip s)

/-- Fixed-width 2-digit decimal text of n (spec-side, for quantifying
over all texts of the form YYYY-MM-DD HH:MM). -/
def fix2 (n : Nat) : List Char := [digitChar (n / 10 % 10), digitChar (n % 10)]

/-- Fixed-width 4-digit decimal text of n (spec-side). -/
def fix4 (n : Nat) : List Char :=
  [digitChar (n / 1000 % 10), digitChar (n / 100 % 10),
   digitChar (n / 10 % 10), digitChar (n % 10)]

/-- A last-modified text of the form YYYY-MM-DD HH:MM (spec-side). -/
def formatLastMod (Y M D H Mi : Nat) : List Char :=
  fix4 Y ++ '-' :: (fix2 M ++ '-' :: (fix2 D ++ ' ' :: (fix2 H ++ ':' :: fix2 Mi)))

/-! ## Theorems -/

/-- C1: the transfer decision compares the remote epoch seconds with the
local modification time: NEW iff no local file, STALE iff strictly older
local file, UP_TO_DATE otherwise; the live run writes the file exactly
when the decision is NEW or STALE or the clobber flag is set. -/
theorem claim1_decision_and_transfer (localMtime : Option Int)
    (remote : Int) (CLOBBER : Bool) :
    (decisionOf localMtime remote = NEW ↔ localMtime = none) ∧
    (decisionOf localMtime remote = STALE ↔
      ∃ m, localMtime = some m ∧ m < remote) ∧
    (decisionOf localMtime remote = UP_TO_DATE ↔
      ∃ m, localMtime = some m ∧ remote ≤ m) ∧
    ((http_pull_file localMtime remote false CLOBBER).wrote = true ↔
      (decisionOf localMtime remote = NEW ∨
       decisionOf localMtime remote = STALE ∨ CLOBBER = true)) := by
  rcases localMtime with _ | m
  · refine ⟨by simp [decisionOf], by simp [decisionOf], by simp [decisionOf], ?_⟩
    simp [decisionOf, http_pull_file]
  · by_cases h : m < remote
    · refine ⟨?_, ?_, ?_, ?_⟩
      · simp [decisionOf, h]
      · simp [decisionOf, h]
      · simp [decisionOf, h]
      · cases CLOBBER <;> simp [decisionOf, http_pull_file, h]
    · refine ⟨?_, ?_, ?_, ?_⟩
      · simp [decisionOf, h]
      · simp [decisionOf, h]
      · simp [decisionOf, h]; omega
      · cases CLOBBER <;> simp [decisionOf, http_pull_file, h]

/-! ### Helper lemmas about the filesystem model -/

theorem lookupMt_setMt_ne (k n : String) (v : Int) (mt : List (String × Int))
    (h : k ≠ n) : lookupMt k (setMt n v mt) = lookupMt k mt := by
  induction mt with
  | nil => simp [setMt, lookupMt, Ne.symm h]
  | cons hd tl ih =>
    rcases hd with ⟨k', v'⟩
    by_cases h' : k' = n
    · subst h'
      simp [setMt, lookupMt, Ne.symm h]
    · simp only [setMt, if_neg h']
      by_cases h'' : k' = k <;> simp [lookupMt, h'', ih]

theorem lookupMt_setMt_self (n : String) (v : Int) (mt : List (String × Int)) :
    lookupMt n (setMt n v mt) = some v := by
  induction mt with
  | nil => simp [setMt, lookupMt]
  | cons hd tl ih =>
    rcases hd with ⟨k, w⟩
    by_cases h : k = n <;> simp [setMt, lookupMt, h, ih]

theorem pull_reported_indep (l : Option Int) (r : Int) (L1 L2 C : Bool) :
    (http_pull_file l r L1 C).reported = (http_pull_file l r L2 C).reported := by
  rcases l with _ | m
  · cases L1 <;> cases L2 <;> simp [http_pull_file]
  · by_cases h : r > m <;> cases C <;> cases L1 <;> cases L2 <;>
      simp [http_pull_file, h]

theorem pull_list_no_write (l : Option Int) (r : Int) (C : Bool) :
    (http_pull_file l r true C).wrote = false := by
  rcases l with _ | m
  · cases C <;> simp [http_pull_file]
  · by_cases h : r > m <;> cases C <;> simp [http_pull_file, h]

/-- A dry (list-only) file loop never changes the filesystem map. -/
theorem syncFiles_dry_mt (files : List (String × Int)) :
    ∀ mt C, (syncFiles true C mt files).1 = mt := by
  induction files with
  | nil => intro mt C; simp [syncFiles]
  | cons hd tl ih =>
    intro mt C
    rcases hd with ⟨n, t⟩
    simp [syncFiles, pull_list_no_write, ih]

/-- A live no-clobber pull never lowers and never removes a recorded
modification time. -/
theorem syncFiles_live_mono (files : List (String × Int)) :
    ∀ mt n m, lookupMt n mt = some m →
      ∃ m', lookupMt n (syncFiles false false mt files).1 = some m' ∧ m ≤ m' := by
  induction files with
  | nil => intro mt n m h; exact ⟨m, by simpa [syncFiles] using h, le_refl m⟩
  | cons hd tl ih =>
    intro mt n m h
    rcases hd with ⟨k, t⟩
    by_cases hk : k = n
    · subst hk
      by_cases hlt : m < t
      · have hw : (http_pull_file (lookupMt k mt) t false false).wrote = true := by
          simp [http_pull_file, h, show t > m from hlt]
        obtain ⟨m', hm', hle⟩ := ih (setMt k t mt) k t (lookupMt_setMt_self k t mt)
        refine ⟨m', ?_, by omega⟩
        simpa [syncFiles, hw] using hm'
      · have hw : (http_pull_file (lookupMt k mt) t false false).wrote = false := by
          simp [http_pull_file, h, show ¬ (t > m) from hlt]
        obtain ⟨m', hm', hle⟩ := ih mt k m h
        refine ⟨m', ?_, hle⟩
        simpa [syncFiles, hw] using hm'
    · rcases hw : (http_pull_file (lookupMt k mt) t false false).wrote with _ | _
      · obtain ⟨m', hm', hle⟩ := ih mt n m h
        refine ⟨m', ?_, hle⟩
        simpa [syncFiles, hw] using hm'
      · obtain ⟨m', hm', hle⟩ := ih (setMt k t mt) n m (by
          rw [lookupMt_setMt_ne n k t mt (Ne.symm hk)]; exact h)
        refine ⟨m', ?_, hle⟩
        simpa [syncFiles, hw] using hm'

/-- After a live no-clobber run, every listed file's recorded modification
time is at least its remote timestamp. -/
theorem syncFiles_live_ge (files : List (String × Int)) :
    ∀ mt n t, (n, t) ∈ files →
      ∃ m, lookupMt n (syncFiles false false mt files).1 = some m ∧ t ≤ m := by
  induction files with
  | nil => intro mt n t h; simp at h
  | cons hd tl ih =>
    intro mt n t h
    rcases hd with ⟨k, s⟩
    rcases List.mem_cons.mp h with heq | htl
    · injection heq with hn ht
      subst hn; subst ht
      rcases hcur : lookupMt n mt with _ | m
      · have hw : (http_pull_file (lookupMt n mt) t false false).wrote = true := by
          simp [http_pull_file, hcur]
        obtain ⟨m', hm', hle⟩ := syncFiles_live_mono tl (setMt n t mt) n t
          (lookupMt_setMt_self n t mt)
        exact ⟨m', by simpa [syncFiles, hw] using hm', hle⟩
      · by_cases hlt : m < t
        · have hw : (http_pull_file (lookupMt n mt) t false false).wrote = true := by
            simp [http_pull_file, hcur, show t > m from hlt]
          obtain ⟨m', hm', hle⟩ := syncFiles_live_mono tl (setMt n t mt) n t
            (lookupMt_setMt_self n t mt)
          exact ⟨m', by simpa [syncFiles, hw] using hm', hle⟩
        · have hw : (http_pull_file (lookupMt n mt) t false false).wrote = false := by
            simp [http_pull_file, hcur, show ¬ (t > m) from hlt]
          obtain ⟨m', hm', hle⟩ := syncFiles_live_mono tl mt n m hcur
          exact ⟨m', by simpa [syncFiles, hw] using hm', by omega⟩
    · rcases hw : (http_pull_file (lookupMt k mt) s false false).wrote with _ | _
      · obtain ⟨m', hm', hle⟩ := ih mt n t htl
        exact ⟨m', by simpa [syncFiles, hw] using hm', hle⟩
      · obtain ⟨m', hm', hle⟩ := ih (setMt k s mt) n t htl
        exact ⟨m', by simpa [syncFiles, hw] using hm', hle⟩

/-- A live no-clobber run over files that are all already up to date
reports nothing and changes nothing. -/
theorem syncFiles_live_upToDate (files : List (String × Int)) :
    ∀ mt, (∀ n t, (n, t) ∈ files → ∃ m, lookupMt n mt = some m ∧ t ≤ m) →
      syncFiles false false mt files = (mt, []) := by
  induction files with
  | nil => intro mt _; simp [syncFiles]
  | cons hd tl ih =>
    intro mt hup
    rcases hd with ⟨k, s⟩
    obtain ⟨m, hm, hle⟩ := hup k s (List.mem_cons_self ..)
    have hno : http_pull_file (lookupMt k mt) s false false =
        ⟨false, " (clobber)", false, some m⟩ := by
      simp [http_pull_file, hm, show ¬ (s > m) from by omega]
    have := ih mt (fun n t ht => hup n t (List.mem_cons_of_mem _ ht))
    simp [syncFiles, hno, this]

/-- C5: a live no-clobber sync is idempotent: after one run, every file's
decision resolves to UP_TO_DATE — because a successful transfer set the
local modification time equal to the remote timestamp — and a second run
against the unchanged listing transfers zero files and changes nothing.
The comparison uses only the remote's reported timestamps, never the
wall-clock time of the run. -/
theorem claim5_second_run_up_to_date (files : List (String × Int))
    (mt : List (String × Int)) :
    syncFiles false false (syncFiles false false mt files).1 files =
      ((syncFiles false false mt files).1, []) ∧
    ∀ n t, (n, t) ∈ files →
      decisionOf (lookupMt n (syncFiles false false mt files).1) t = UP_TO_DATE := by
  constructor
  · exact syncFiles_live_upToDate files _ (fun n t ht => syncFiles_live_ge files mt n t ht)
  · intro n t ht
    obtain ⟨m, hm, hle⟩ := syncFiles_live_ge files mt n t ht
    simp [decisionOf, hm, show ¬ (m < t) from by omega]

/-- Witness for C5 at a concrete listing and an empty local filesystem. -/
theorem claim5_witness :
    syncFiles false false
        (syncFiles false false [] [("ATL06_20181014001049_02350102_003_01.h5", 1539594000)]).1
        [("ATL06_20181014001049_02350102_003_01.h5", 1539594000)] =
      ((syncFiles false false [] [("ATL06_20181014001049_02350102_003_01.h5", 1539594000)]).1, []) ∧
    decisionOf
        (lookupMt "ATL06_20181014001049_02350102_003_01.h5"
          (syncFiles false false [] [("ATL06_20181014001049_02350102_003_01.h5", 1539594000)]).1)
        1539594000 = UP_TO_DATE := by
  refine ⟨(claim5_second_run_up_to_date _ _).1, ?_⟩
  exact (claim5_second_run_up_to_date
    [("ATL06_20181014001049_02350102_003_01.h5", 1539594000)] []).2
    "ATL06_20181014001049_02350102_003_01.h5" 1539594000 (by simp)

/-- C2 fails on the code: with the list-only flag set, the subdirectory
loop still creates the local directory (source lines 186-189 run before
the flag is ever consulted).  Concretely, a dry run over one matched
subdirectory starting from an empty local filesystem creates a directory. -/
theorem claim2_counterexample :
    ¬ ((nsidc_sync_subdir true false "ATL06.003/2018.10.14"
          [("ATL06_20181014001049_02350102_003_01.h5", 1539594000)]
          ⟨[], []⟩).1.dirs = (⟨[], []⟩ : FS).dirs) := by
  decide

/-- C2 amended: with dry-run enabled no bytes are written to any local
file, and the same files are reported as would-be transfers as in a live
run over the same listing (file names in a listing are distinct), but
local directories are still created — the same ones a live run creates. -/
theorem claim2_amended (dir : String) (files : List (String × Int)) (fs : FS)
    (CLOBBER : Bool) (hnd : (files.map Prod.fst).Nodup) :
    (nsidc_sync_subdir true CLOBBER dir files fs).1.mt = fs.mt ∧
    (nsidc_sync_subdir true CLOBBER dir files fs).2 =
      (nsidc_sync_subdir false CLOBBER dir files fs).2 ∧
    (nsidc_sync_subdir true CLOBBER dir files fs).1.dirs =
      (nsidc_sync_subdir false CLOBBER dir files fs).1.dirs := by
  have hrep : ∀ (files : List (String × Int)) (mt₁ mt₂ : List (String × Int)),
      (files.map Prod.fst).Nodup →
      (∀ n, n ∈ files.map Prod.fst → lookupMt n mt₁ = lookupMt n mt₂) →
      (syncFiles true CLOBBER mt₁ files).2 = (syncFiles false CLOBBER mt₂ files).2 := by
    intro fl
    induction fl with
    | nil => intro mt₁ mt₂ _ _; simp [syncFiles]
    | cons hd tl ih =>
      intro mt₁ mt₂ hnd₂ hag
      rcases hd with ⟨k, t⟩
      have hnd' : k ∉ tl.map Prod.fst ∧ (tl.map Prod.fst).Nodup := by
        have h := hnd₂
        simp only [List.map_cons, List.nodup_cons] at h
        exact h
      have hk : lookupMt k mt₁ = lookupMt k mt₂ := hag k (by simp)
      have hrep₁ : (http_pull_file (lookupMt k mt₁) t true CLOBBER).reported =
          (http_pull_file (lookupMt k mt₂) t false CLOBBER).reported := by
        rw [hk]; exact pull_reported_indep _ _ _ _ _
      have hag' : ∀ n, n ∈ tl.map Prod.fst →
          lookupMt n mt₁ =
            lookupMt n (if (http_pull_file (lookupMt k mt₂) t false CLOBBER).wrote
              then setMt k t mt₂ else mt₂) := by
        intro n hn
        have hne : n ≠ k := fun hcontra => hnd'.1 (hcontra ▸ hn)
        have hbase := hag n (by
          simp only [List.map_cons]
          exact List.mem_cons_of_mem _ hn)
        by_cases hw : (http_pull_file (lookupMt k mt₂) t false CLOBBER).wrote = true
        · rw [if_pos hw, lookupMt_setMt_ne n k t mt₂ hne]
          exact hbase
        · rw [if_neg hw]
          exact hbase
      have htl := ih mt₁ _ hnd'.2 hag'
      have hw₁ : (http_pull_file (lookupMt k mt₁) t true CLOBBER).wrote = false :=
        pull_list_no_write _ _ _
      simp only [syncFiles]
      rw [hw₁]
      simp only [Bool.false_eq_true, if_false]
      rw [hrep₁, htl]
  refine ⟨?_, ?_, rfl⟩
  · simp [nsidc_sync_subdir, syncFiles_dry_mt, makedirs]
    split <;> rfl
  · exact hrep files (makedirs dir fs).mt (makedirs dir fs).mt hnd (fun _ _ => rfl)

/-- Witness for C2 amended at a concrete dry run. -/
theorem claim2_amended_witness :
    (nsidc_sync_subdir true false "ATL06.003/2018.10.14"
        [("ATL06_20181014001049_02350102_003_01.h5", 1539594000)] ⟨[], []⟩).1.mt =
      (⟨[], []⟩ : FS).mt ∧
    (nsidc_sync_subdir true false "ATL06.003/2018.10.14"
        [("ATL06_20181014001049_02350102_003_01.h5", 1539594000)] ⟨[], []⟩).2 =
      (nsidc_sync_subdir false false "ATL06.003/2018.10.14"
        [("ATL06_20181014001049_02350102_003_01.h5", 1539594000)] ⟨[], []⟩).2 ∧
    (nsidc_sync_subdir true false "ATL06.003/2018.10.14"
        [("ATL06_20181014001049_02350102_003_01.h5", 1539594000)] ⟨[], []⟩).1.dirs =
      (nsidc_sync_subdir false false "ATL06.003/2018.10.14"
        [("ATL06_20181014001049_02350102_003_01.h5", 1539594000)] ⟨[], []⟩).1.dirs :=
  claim2_amended "ATL06.003/2018.10.14"
    [("ATL06_20181014001049_02350102_003_01.h5", 1539594000)] ⟨[], []⟩ false (by simp)

/-- C3 fails on the code: the product loop has no exception handling, so a
listing-fetch failure for ATL07 aborts the run and ATL08 — whose listing
is fetchable — is never processed. -/
theorem claim3_counterexample :
    fetchCex "ATL08" = Except.ok ["2018.10.14"] ∧
    runProducts fetchCex ["ATL07", "ATL08"] = ([], some "ListingFetchError") := by
  constructor
  · rfl
  · rfl

/-- C3 amended: a listing-fetch failure for one product aborts the whole
run — the products before the failing one are processed, the error
propagates out of the loop, and the remaining products are not processed. -/
theorem claim3_amended (fetch : String → Except String (List String))
    (l₁ : List String) (p : String) (l₂ : List String)
    (res : String → List String) (e : String)
    (h₁ : ∀ q ∈ l₁, fetch q = Except.ok (res q))
    (h₂ : fetch p = Except.error e) :
    runProducts fetch (l₁ ++ p :: l₂) = (l₁.map (fun q => (q, res q)), some e) := by
  induction l₁ with
  | nil => simp [runProducts, h₂]
  | cons q l₁ ih =>
    have hq : fetch q = Except.ok (res q) := h₁ q (List.mem_cons_self ..)
    have ih' := ih (fun r hr => h₁ r (List.mem_cons_of_mem _ hr))
    simp [runProducts, hq, ih']

/-- Witness for C3 amended: ATL06 succeeds, ATL07 fails, ATL08 is cut off. -/
theorem claim3_amended_witness :
    runProducts fetchCex (["ATL06"] ++ "ATL07" :: ["ATL08"]) =
      (["ATL06"].map (fun q => (q, ["2018.10.14"])), some "ListingFetchError") :=
  claim3_amended fetchCex ["ATL06"] "ATL07" ["ATL08"] (fun _ => ["2018.10.14"])
    "ListingFetchError" (by intro q hq; simp at hq; subst hq; rfl) rfl

/-- C6 fails on the code: a transfer interrupted mid-write leaves the
partial file in place with the wall-clock write time as its modification
time; when — as for any already-published remote file — that write time is
not before the remote timestamp, the next run's decision is UP_TO_DATE and
the file is not retried. -/
theorem claim6_counterexample :
    http_pull_file_interrupted none 100 false 100 = some 100 ∧
    decisionOf (some 100) 100 = UP_TO_DATE ∧
    (http_pull_file (some 100) 100 false false).reported = false := by
  refine ⟨rfl, ?_, rfl⟩
  simp [decisionOf]

/-- C6 amended: whenever a live transfer would write (decision NEW or
STALE, or clobber), an interruption mid-write leaves the partial file with
the wall-clock write time as its modification time; the next run sees it
as STALE and retries exactly when that write time is strictly less than
the remote timestamp, and as UP_TO_DATE otherwise. -/
theorem claim6_amended (localMtime : Option Int) (remote wallClock : Int)
    (CLOBBER : Bool)
    (h : (http_pull_file localMtime remote false CLOBBER).wrote = true) :
    http_pull_file_interrupted localMtime remote CLOBBER wallClock = some wallClock ∧
    (decisionOf (some wallClock) remote = STALE ↔ wallClock < remote) ∧
    (decisionOf (some wallClock) remote = UP_TO_DATE ↔ remote ≤ wallClock) := by
  refine ⟨?_, ?_, ?_⟩
  · rcases localMtime with _ | m
    · simp [http_pull_file_interrupted]
    · by_cases hlt : remote > m
      · simp [http_pull_file_interrupted, hlt]
      · have hC : CLOBBER = true := by
          cases CLOBBER
          · simp [http_pull_file, hlt] at h
          · rfl
        simp [http_pull_file_interrupted, hlt, hC]
  · by_cases hlt : wallClock < remote <;> simp [decisionOf, hlt]
  · by_cases hlt : wallClock < remote
    · simp [decisionOf, hlt]
    · simp [decisionOf, hlt]
      omega

/-- Witness for C6 amended at a fresh (NEW) file. -/
theorem claim6_amended_witness :
    http_pull_file_interrupted none 100 false 50 = some 50 ∧
    (decisionOf (some 50) 100 = STALE ↔ (50 : Int) < 100) ∧
    (decisionOf (some 50) 100 = UP_TO_DATE ↔ (100 : Int) ≤ 50) :=
  claim6_amended none 100 50 false (by decide)

/-! ### Helper lemmas about the matcher combinators -/

theorem obind_eq_true (o : Option (List Char)) (k : List Char → Bool) :
    obind o k = true ↔ ∃ r, o = some r ∧ k r = true := by
  cases o <;> simp [obind]

theorem stripLit_eq_some (a : List Char) :
    ∀ s r, stripLit a s = some r ↔ s = a ++ r := by
  induction a with
  | nil =>
    intro s r
    simp [stripLit]
  | cons c lit ih =>
    intro s r
    cases s with
    | nil => simp [stripLit]
    | cons x s2 =>
      by_cases h : c = x
      · subst h
        simp [stripLit, ih]
      · simp only [stripLit, if_neg h, List.cons_append, List.cons.injEq]
        constructor
        · intro hc; cases hc
        · rintro ⟨hx, _⟩; exact absurd hx.symm h

theorem takeDigits_eq_some (k : Nat) :
    ∀ s r, takeDigits k s = some r ↔
      ∃ d, s = d ++ r ∧ d.length = k ∧ ∀ c ∈ d, c.isDigit = true := by
  induction k with
  | zero =>
    intro s r
    simp only [takeDigits, Option.some.injEq]
    constructor
    · intro h; exact ⟨[], by simp [h], by simp, by simp⟩
    · rintro ⟨d, hd, hl, _⟩
      rw [List.length_eq_zero] at hl
      subst hl; simpa using hd
  | succ k ih =>
    intro s r
    cases s with
    | nil =>
      simp only [takeDigits]
      constructor
      · intro h; cases h
      · rintro ⟨d, hd, hl, _⟩
        rcases d with _ | ⟨c, d⟩
        · simp at hl
        · simp at hd
    | cons x s2 =>
      by_cases h : x.isDigit = true
      · simp only [takeDigits, if_pos h, ih]
        constructor
        · rintro ⟨d, hd, hl, hdig⟩
          exact ⟨x :: d, by simp [hd], by simp [hl], by
            intro c hc
            rcases List.mem_cons.mp hc with hc | hc
            · subst hc; exact h
            · exact hdig c hc⟩
        · rintro ⟨d, hd, hl, hdig⟩
          rcases d with _ | ⟨c, d⟩
          · simp at hl
          · simp only [List.cons_append, List.cons.injEq] at hd
            exact ⟨d, hd.2, by simpa using hl, fun c2 hc2 =>
              hdig c2 (List.mem_cons_of_mem _ hc2)⟩
      · simp only [takeDigits, if_neg h]
        constructor
        · intro hc; cases hc
        · rintro ⟨d, hd, hl, hdig⟩
          rcases d with _ | ⟨c, d⟩
          · simp at hl
          · simp only [List.cons_append, List.cons.injEq] at hd
            exact absurd (hd.1 ▸ hdig c (by simp)) h

theorem anyAlt_eq_true (alts : List (List Char)) (k : List Char → Bool) (s : List Char) :
    anyAlt alts k s = true ↔ ∃ a ∈ alts, ∃ r, s = a ++ r ∧ k r = true := by
  simp [anyAlt, List.any_eq_true, obind_eq_true, stripLit_eq_some]

theorem startsH5_eq_true (s : List Char) :
    startsH5 s = true ↔ ∃ t, s = 'h' :: '5' :: t := by
  match s with
  | [] => simp [startsH5]
  | [a] => simp [startsH5]
  | a :: b :: t =>
    simp only [startsH5, Bool.and_eq_true, decide_eq_true_eq, List.cons.injEq]
    constructor
    · rintro ⟨h1, h2⟩; exact ⟨t, h1, h2, rfl⟩
    · rintro ⟨t2, h1, h2, h3⟩; exact ⟨h1, h2⟩

theorem hasH5_eq_true : ∀ r, hasH5 r = true ↔ ∃ a rest, r = a ++ 'h' :: '5' :: rest := by
  intro r
  induction r with
  | nil =>
    simp only [hasH5]
    constructor
    · intro h; cases h
    · rintro ⟨a, rest, h⟩; cases a <;> simp at h
  | cons c r ih =>
    simp only [hasH5, Bool.or_eq_true, startsH5_eq_true, ih]
    constructor
    · rintro (⟨t, ht⟩ | ⟨a, rest, ha⟩)
      · exact ⟨[], t, by simp [ht]⟩
      · exact ⟨c :: a, rest, by simp [ha]⟩
    · rintro ⟨a, rest, ha⟩
      rcases a with _ | ⟨x, a⟩
      · exact Or.inl ⟨rest, by simpa using ha⟩
      · simp only [List.cons_append, List.cons.injEq] at ha
        exact Or.inr ⟨a, rest, ha.2⟩

theorem suffixMatch_false_eq_true (r : List Char) :
    suffixMatch false r = true ↔ ∃ ch a rest, r = ch :: (a ++ 'h' :: '5' :: rest) := by
  cases r with
  | nil =>
    have hdef : suffixMatch false ([] : List Char) = false := rfl
    rw [hdef]
    constructor
    · intro h; cases h
    · rintro ⟨ch, a, rest, h⟩; cases h
  | cons c r2 =>
    have hdef : suffixMatch false (c :: r2) = hasH5 r2 := rfl
    rw [hdef, hasH5_eq_true]
    constructor
    · rintro ⟨a, rest, ha⟩; exact ⟨c, a, rest, by simp [ha]⟩
    · rintro ⟨ch, a, rest, h⟩
      simp only [List.cons.injEq] at h
      exact ⟨a, rest, h.2⟩

/-- The per-product matcher accepts exactly the strings of FileLoose
shape: the full characterization of R1 acceptance, auxiliary off. -/
theorem fileMatch_false_iff (p : List Char) (TRACKS GRANULES VERSIONS : List Nat)
    (RELEASE : List Char) (f : List Char) :
    fileMatch p TRACKS GRANULES VERSIONS RELEASE false f = true ↔
    FileLoose p TRACKS GRANULES VERSIONS RELEASE f := by
  constructor
  · intro hm
    unfold fileMatch at hm
    obtain ⟨s1, h1, hm⟩ := (obind_eq_true _ _).mp hm
    rw [stripLit_eq_some] at h1
    obtain ⟨s2, h2, hm⟩ := (obind_eq_true _ _).mp hm
    obtain ⟨ts, h2e, hlen, hdig⟩ := (takeDigits_eq_some _ _ _).mp h2
    obtain ⟨s3, h3, hm⟩ := (obind_eq_true _ _).mp hm
    rw [stripLit_eq_some] at h3
    obtain ⟨a1, hmem1, s4, h4, hm⟩ := (anyAlt_eq_true _ _ _).mp hm
    obtain ⟨t, ht, hpt⟩ := List.mem_map.mp hmem1
    obtain ⟨s5, h5, hm⟩ := (obind_eq_true _ _).mp hm
    obtain ⟨cyc, h5e, hclen, hcdig⟩ := (takeDigits_eq_some _ _ _).mp h5
    obtain ⟨a2, hmem2, s6, h6, hm⟩ := (anyAlt_eq_true _ _ _).mp hm
    obtain ⟨g, hg, hpg⟩ := List.mem_map.mp hmem2
    obtain ⟨s7, h7, hm⟩ := (obind_eq_true _ _).mp hm
    rw [stripLit_eq_some] at h7
    obtain ⟨a3, hmem3, s8, h8, hm⟩ := (anyAlt_eq_true _ _ _).mp hm
    obtain ⟨v, hv, hpv⟩ := List.mem_map.mp hmem3
    obtain ⟨ch, desc, rest, h9⟩ := (suffixMatch_false_eq_true _).mp hm
    refine ⟨ts, cyc, desc, rest, ch, t, g, v, ht, hg, hv, hlen, hdig, hclen, hcdig, ?_⟩
    subst h9 h8 h7 h6 h5e h4 h3 h2e h1
    rw [← hpt, ← hpg, ← hpv]
    simp [List.append_assoc]
  · rintro ⟨ts, cyc, desc, rest, ch, t, g, v, ht, hg, hv, hlen, hdig, hclen, hcdig, heq⟩
    unfold fileMatch
    refine (obind_eq_true _ _).mpr
      ⟨ts ++ ['_'] ++ pad 4 t ++ cyc ++ pad 2 g ++ ['_'] ++ RELEASE ++ ['_'] ++
        pad 2 v ++ ch :: (desc ++ 'h' :: '5' :: rest), ?_, ?_⟩
    · rw [stripLit_eq_some, heq]
      simp [List.append_assoc]
    · refine (obind_eq_true _ _).mpr
        ⟨['_'] ++ pad 4 t ++ cyc ++ pad 2 g ++ ['_'] ++ RELEASE ++ ['_'] ++
          pad 2 v ++ ch :: (desc ++ 'h' :: '5' :: rest), ?_, ?_⟩
      · rw [takeDigits_eq_some]
        exact ⟨ts, by simp [List.append_assoc], hlen, hdig⟩
      · refine (obind_eq_true _ _).mpr
          ⟨pad 4 t ++ cyc ++ pad 2 g ++ ['_'] ++ RELEASE ++ ['_'] ++
            pad 2 v ++ ch :: (desc ++ 'h' :: '5' :: rest), ?_, ?_⟩
        · rw [stripLit_eq_some]
          simp [List.append_assoc]
        · refine (anyAlt_eq_true _ _ _).mpr
            ⟨pad 4 t, List.mem_map.mpr ⟨t, ht, rfl⟩,
              cyc ++ pad 2 g ++ ['_'] ++ RELEASE ++ ['_'] ++
                pad 2 v ++ ch :: (desc ++ 'h' :: '5' :: rest), ?_, ?_⟩
          · simp [List.append_assoc]
          · refine (obind_eq_true _ _).mpr
              ⟨pad 2 g ++ ['_'] ++ RELEASE ++ ['_'] ++
                pad 2 v ++ ch :: (desc ++ 'h' :: '5' :: rest), ?_, ?_⟩
            · rw [takeDigits_eq_some]
              exact ⟨cyc, by simp [List.append_assoc], hclen, hcdig⟩
            · refine (anyAlt_eq_true _ _ _).mpr
                ⟨pad 2 g, List.mem_map.mpr ⟨g, hg, rfl⟩,
                  ['_'] ++ RELEASE ++ ['_'] ++
                    pad 2 v ++ ch :: (desc ++ 'h' :: '5' :: rest), ?_, ?_⟩
              · simp [List.append_assoc]
              · refine (obind_eq_true _ _).mpr
                  ⟨pad 2 v ++ ch :: (desc ++ 'h' :: '5' :: rest), ?_, ?_⟩
                · rw [stripLit_eq_some]
                  simp [List.append_assoc]
                · refine (anyAlt_eq_true _ _ _).mpr
                    ⟨pad 2 v, List.mem_map.mpr ⟨v, hv, rfl⟩,
                      ch :: (desc ++ 'h' :: '5' :: rest), ?_, ?_⟩
                  · simp [List.append_assoc]
                  · exact (suffixMatch_false_eq_true _).mpr ⟨ch, desc, rest, rfl⟩

theorem third_from_end (X : List Char) (c1 c2 c3 : Char) :
    ((X ++ [c1, c2, c3]).reverse).get? 2 = some c1 := by
  rw [List.reverse_append]
  have h : ([c1, c2, c3].reverse : List Char) = [c3, c2, c1] := rfl
  rw [h]
  rfl

theorem fileSpec_imp_fileLoose (p : List Char) (TRACKS GRANULES VERSIONS : List Nat)
    (RELEASE : List Char) (f : List Char)
    (h : FileSpec p TRACKS GRANULES VERSIONS RELEASE f) :
    FileLoose p TRACKS GRANULES VERSIONS RELEASE f := by
  obtain ⟨ts, cyc, desc, t, g, v, ht, hg, hv, hlen, hdig, hclen, hcdig, heq⟩ := h
  rcases desc with _ | ⟨d0, desc⟩
  · exact ⟨ts, cyc, [], [], '.', t, g, v, ht, hg, hv, hlen, hdig, hclen, hcdig, by
      rw [heq]; simp [List.append_assoc]⟩
  · exact ⟨ts, cyc, desc ++ ['.'], [], d0, t, g, v, ht, hg, hv, hlen, hdig, hclen, hcdig, by
      rw [heq]; simp [List.append_assoc]⟩

/-- C4 fails on the code: re.match anchors at the start only and the dot
before the suffix is an unescaped any-character, so with auxiliary off a
name whose fields all decode correctly but which does not end in .h5 —
here the character before h5 is x — is still accepted. -/
theorem claim4_counterexample :
    anyProductMatch [String.toList "ATL06"] [235] [2] [1] (String.toList "003") false
      (String.toList "ATL06_20181014001049_02350102_003_01xh5") = true ∧
    ¬ (∃ p ∈ [String.toList "ATL06"],
        FileSpec p [235] [2] [1] (String.toList "003")
          (String.toList "ATL06_20181014001049_02350102_003_01xh5")) := by
  constructor
  · decide
  · rintro ⟨p, hp, ts, cyc, desc, t, g, v, ht, hg, hv, hlen, hdig, hclen, hcdig, heq⟩
    have h3 : ((String.toList "ATL06_20181014001049_02350102_003_01xh5").reverse).get? 2 =
        some 'x' := by decide
    rw [heq, third_from_end] at h3
    cases h3

/-- C4 amended: the compiled file matcher accepts a string exactly when
some prefix of it decodes to a requested product code, a 14-digit
timestamp, a requested track, a 2-digit cycle, a requested granule, the
requested release and a requested version, followed by at least one
arbitrary character and then the literal h5 (suffix not anchored, the dot
unescaped); every string the original claim describes (exact .h5 suffix)
is in particular accepted. -/
theorem claim4_amended (PRODUCTS : List (List Char))
    (TRACKS GRANULES VERSIONS : List Nat) (RELEASE : List Char) (f : List Char) :
    (anyProductMatch PRODUCTS TRACKS GRANULES VERSIONS RELEASE false f = true ↔
      ∃ p ∈ PRODUCTS, FileLoose p TRACKS GRANULES VERSIONS RELEASE f) ∧
    ((∃ p ∈ PRODUCTS, FileSpec p TRACKS GRANULES VERSIONS RELEASE f) →
      anyProductMatch PRODUCTS TRACKS GRANULES VERSIONS RELEASE false f = true) := by
  have hiff : anyProductMatch PRODUCTS TRACKS GRANULES VERSIONS RELEASE false f = true ↔
      ∃ p ∈ PRODUCTS, FileLoose p TRACKS GRANULES VERSIONS RELEASE f := by
    simp only [anyProductMatch, List.any_eq_true, fileMatch_false_iff]
  refine ⟨hiff, ?_⟩
  rintro ⟨p, hp, hspec⟩
  exact hiff.mpr ⟨p, hp, fileSpec_imp_fileLoose _ _ _ _ _ _ hspec⟩

/-- Witness for C4 amended: the end-to-end scenario filename is accepted
through the FileSpec route. -/
theorem claim4_amended_witness :
    anyProductMatch [String.toList "ATL06"] [235] [2] [1] (String.toList "003") false
      (String.toList "ATL06_20181014001049_02350102_003_01.h5") = true :=
  (claim4_amended [String.toList "ATL06"] [235] [2] [1] (String.toList "003")
      (String.toList "ATL06_20181014001049_02350102_003_01.h5")).2
    ⟨String.toList "ATL06", by simp,
      String.toList "20181014001049", String.toList "01", [], 235, 2, 1,
      by decide, by decide, by decide, by decide, by decide, by decide, by decide,
      by decide⟩

/-! ### The explicit subdirectory matcher -/

theorem patStrip_eq_some (n : List Char) :
    ∀ s r, patStrip n s = some r ↔
      ∃ m, s = m ++ r ∧ m.length = n.length ∧
        ∀ pr ∈ n.zip m, patChar pr.1 pr.2 = true := by
  induction n with
  | nil =>
    intro s r
    simp only [patStrip, Option.some.injEq, List.length_nil, List.length_eq_zero]
    constructor
    · intro h; exact ⟨[], by simp [h], rfl, by simp⟩
    · rintro ⟨m, hm, hl, _⟩
      subst hl; simpa using hm
  | cons pc ps ih =>
    intro s r
    cases s with
    | nil =>
      simp only [patStrip]
      constructor
      · intro h; cases h
      · rintro ⟨m, hm, hl, _⟩
        rcases m with _ | ⟨x, m⟩
        · simp at hl
        · simp at hm
    | cons c s2 =>
      by_cases h : patChar pc c = true
      · simp only [patStrip, if_pos h, ih]
        constructor
        · rintro ⟨m, hm, hl, hpat⟩
          refine ⟨c :: m, by simp [hm], by simp [hl], ?_⟩
          intro pr hpr
          rcases List.mem_cons.mp hpr with hpr | hpr
          · subst hpr; exact h
          · exact hpat pr hpr
        · rintro ⟨m, hm, hl, hpat⟩
          rcases m with _ | ⟨x, m⟩
          · simp at hl
          · simp only [List.cons_append, List.cons.injEq] at hm
            refine ⟨m, hm.2, by simpa using hl, ?_⟩
            intro pr hpr
            exact hpat pr (by simp [hpr])
      · simp only [patStrip, if_neg h]
        constructor
        · intro hc; cases hc
        · rintro ⟨m, hm, hl, hpat⟩
          rcases m with _ | ⟨x, m⟩
          · simp at hl
          · simp only [List.cons_append, List.cons.injEq] at hm
            refine absurd ?_ h
            have := hpat (pc, x) (by simp)
            rwa [← hm.1] at this

theorem patStrip_self (n : List Char) : patStrip n n = some [] := by
  induction n with
  | nil => rfl
  | cons c ps ih =>
    have h : patChar c c = true := by simp [patChar]
    simp [patStrip, h, ih]

/-- C7 fails on the code: the supplied names are compiled unescaped into
an alternation tested with re.match, so the match is anchored at the
start only and each dot matches any character; a strict superstring of a
supplied name, and a name with the dots replaced, are both accepted
although neither is a member of the supplied set. -/
theorem claim7_counterexample :
    subdirMatchExplicit [String.toList "2018.10.14"] (String.toList "2018.10.149") = true ∧
    String.toList "2018.10.149" ∉ [String.toList "2018.10.14"] ∧
    subdirMatchExplicit [String.toList "2018.10.14"] (String.toList "2018x10y14") = true ∧
    String.toList "2018x10y14" ∉ [String.toList "2018.10.14"] := by
  refine ⟨by decide, by decide, by decide, by decide⟩

/-- C7 amended: the subdirectory matcher accepts a candidate exactly when
some supplied name matches a prefix of it, with each dot of the name
matching any character; in particular every member of the supplied set is
accepted, but acceptance is not exact membership. -/
theorem claim7_amended (SUBDIRECTORY : List (List Char)) (sd : List Char) :
    (subdirMatchExplicit SUBDIRECTORY sd = true ↔
      ∃ n ∈ SUBDIRECTORY, ∃ m r, sd = m ++ r ∧ m.length = n.length ∧
        ∀ pr ∈ n.zip m, patChar pr.1 pr.2 = true) ∧
    (sd ∈ SUBDIRECTORY → subdirMatchExplicit SUBDIRECTORY sd = true) := by
  constructor
  · simp only [subdirMatchExplicit, List.any_eq_true, Option.isSome_iff_exists,
      patStrip_eq_some]
    constructor
    · rintro ⟨n, hn, r, m, hm, hl, hpat⟩
      exact ⟨n, hn, m, r, hm, hl, hpat⟩
    · rintro ⟨n, hn, m, r, hm, hl, hpat⟩
      exact ⟨n, hn, r, m, hm, hl, hpat⟩
  · intro hmem
    simp only [subdirMatchExplicit, List.any_eq_true]
    exact ⟨sd, hmem, by simp [patStrip_self]⟩

/-- Witness for C7 amended: the round date subdirectory name of the
end-to-end scenario is a member of the supplied set and is accepted. -/
theorem claim7_amended_witness :
    subdirMatchExplicit [String.toList "2018.10.14"] (String.toList "2018.10.14") = true :=
  (claim7_amended [String.toList "2018.10.14"] (String.toList "2018.10.14")).2 (by decide)

/-! ### The default subdirectory matcher -/

theorem dseq_true_zero (s : List Char) : dseq true 0 s = true := by
  cases s <;> simp [dseq]

theorem dseq_false_eq (k : Nat) (s : List Char) :
    dseq false k s = true ↔
      ∃ c s2, s = c :: s2 ∧ c.isDigit = true ∧ dseq true k s2 = true := by
  cases s with
  | nil =>
    constructor
    · intro h; cases h
    · rintro ⟨c, s2, h, _, _⟩; cases h
  | cons c s2 =>
    have hdef : dseq false k (c :: s2) = (c.isDigit && dseq true k s2) := rfl
    rw [hdef, Bool.and_eq_true]
    constructor
    · rintro ⟨h1, h2⟩; exact ⟨c, s2, rfl, h1, h2⟩
    · rintro ⟨c2, s3, h, h1, h2⟩
      injection h with hc hs
      subst hc; subst hs
      exact ⟨h1, h2⟩

theorem dseq_true_succ (k : Nat) :
    ∀ s, dseq true (k + 1) s = true ↔
      ∃ d x r, s = d ++ x :: r ∧ (∀ c ∈ d, c.isDigit = true) ∧
        dseq false k r = true := by
  intro s
  induction s with
  | nil =>
    constructor
    · intro h; simp [dseq] at h
    · rintro ⟨d, x, r, hd, _, _⟩
      rcases d with _ | ⟨y, d⟩ <;> simp at hd
  | cons c s ih =>
    have hdef : dseq true (k + 1) (c :: s) =
        ((c.isDigit && dseq true (k + 1) s) || dseq false k s) := rfl
    rw [hdef, Bool.or_eq_true, Bool.and_eq_true]
    constructor
    · rintro (⟨hc, hrec⟩ | h2)
      · obtain ⟨d, x, r, hd, hdig, hr⟩ := ih.mp hrec
        refine ⟨c :: d, x, r, by simp [hd], ?_, hr⟩
        intro e he
        rcases List.mem_cons.mp he with he | he
        · subst he; exact hc
        · exact hdig e he
      · exact ⟨[], c, s, by simp, by simp, h2⟩
    · rintro ⟨d, x, r, hd, hdig, hr⟩
      rcases d with _ | ⟨y, d⟩
      · simp only [List.nil_append, List.cons.injEq] at hd
        exact Or.inr (by rw [hd.2]; exact hr)
      · simp only [List.cons_append, List.cons.injEq] at hd
        refine Or.inl ⟨?_, ih.mpr ⟨d, x, r, hd.2, fun e he => hdig e (by simp [he]), hr⟩⟩
        rw [hd.1]
        exact hdig y (by simp)

/-- C10 fails on the code: in the default pattern the two separators are
unescaped dots, each matching any character, so a purely numeric name
with no dots at all is accepted. -/
theorem claim10_counterexample :
    subdirMatchDefault (String.toList "12345") = true ∧
    ¬ subdirDotShape (String.toList "12345") := by
  constructor
  · decide
  · rintro ⟨a, b, c, rest, heq, _⟩
    have hmem : '.' ∈ String.toList "12345" := by
      rw [heq]; simp
    exact absurd hmem (by decide)

/-- C10 amended: with neither explicit names nor years supplied, the
default matcher accepts exactly the names that start with a nonempty
digit group, one arbitrary character, a nonempty digit group, one
arbitrary character and a digit — the separators are unescaped dots, so
they match any character, and the match is a prefix match. -/
theorem claim10_amended (sd : List Char) :
    subdirMatchDefault sd = true ↔
      ∃ a b : List Char, ∃ x y z : Char, ∃ rest : List Char,
        sd = a ++ x :: (b ++ y :: z :: rest) ∧
        a ≠ [] ∧ (∀ c ∈ a, c.isDigit = true) ∧
        b ≠ [] ∧ (∀ c ∈ b, c.isDigit = true) ∧
        z.isDigit = true := by
  constructor
  · intro h
    obtain ⟨c1, s1, hsd, hc1, h1⟩ := (dseq_false_eq 2 sd).mp h
    obtain ⟨d1, x, r1, hs1, hd1, hr1⟩ := (dseq_true_succ 1 s1).mp h1
    obtain ⟨c2, s2, hr1e, hc2, h2⟩ := (dseq_false_eq 1 r1).mp hr1
    obtain ⟨d2, y, r2, hs2, hd2, hr2⟩ := (dseq_true_succ 0 s2).mp h2
    obtain ⟨z, s3, hr2e, hz, _⟩ := (dseq_false_eq 0 r2).mp hr2
    refine ⟨c1 :: d1, c2 :: d2, x, y, z, s3, ?_, by simp, ?_, by simp, ?_, hz⟩
    · subst hr2e hs2 hr1e hs1 hsd
      simp
    · intro e he
      rcases List.mem_cons.mp he with he | he
      · subst he; exact hc1
      · exact hd1 e he
    · intro e he
      rcases List.mem_cons.mp he with he | he
      · subst he; exact hc2
      · exact hd2 e he
  · rintro ⟨a, b, x, y, z, rest, heq, ha, hadig, hb, hbdig, hz⟩
    rcases a with _ | ⟨a0, a⟩
    · exact absurd rfl ha
    rcases b with _ | ⟨b0, b⟩
    · exact absurd rfl hb
    refine (dseq_false_eq 2 sd).mpr
      ⟨a0, a ++ x :: ((b0 :: b) ++ y :: z :: rest), by simpa using heq,
        hadig a0 (by simp), ?_⟩
    refine (dseq_true_succ 1 _).mpr
      ⟨a, x, (b0 :: b) ++ y :: z :: rest, rfl,
        fun e he => hadig e (by simp [he]), ?_⟩
    refine (dseq_false_eq 1 _).mpr
      ⟨b0, b ++ y :: z :: rest, by simp, hbdig b0 (by simp), ?_⟩
    refine (dseq_true_succ 0 _).mpr
      ⟨b, y, z :: rest, rfl, fun e he => hbdig e (by simp [he]), ?_⟩
    exact (dseq_false_eq 0 _).mpr ⟨z, rest, rfl, hz, dseq_true_zero rest⟩

/-! ### The file-row indexing -/

/-- C8 fails on the code: the entry names and the last-modified cells are
extracted as two independent lists and the planner reads collastmod at
the index the name has in colnames (line 204); with a name-only row (a
directory link) ahead of a matched file, the matched index is 1 while the
last-modified list has a single cell, so the lookup reads past its end. -/
theorem claim8_counterexample :
    matchedIndices
      (fun f => fileMatch (String.toList "ATL06") [235] [2] [1]
        (String.toList "003") false f)
      [String.toList "2018.10.14/",
       String.toList "ATL06_20181014001049_02350102_003_01.h5"] = [1] ∧
    ([String.toList "2018-10-15 09:00"].get? 1 : Option (List Char)) = none := by
  constructor
  · decide
  · rfl

/-- C8 amended: the planner reads the last-modified list at the position
the matched name has in the name list; whenever every row contributes a
last-modified cell — the name list is no longer than the last-modified
list — that lookup is always in range, but rows carrying a name and no
cell shift the lists and can push a matched index past the end. -/
theorem claim8_amended (R1 : List Char → Bool) (colnames collastmod : List (List Char))
    (hlen : colnames.length ≤ collastmod.length) :
    ∀ i ∈ matchedIndices R1 colnames, ∃ lm, collastmod.get? i = some lm := by
  intro i hi
  simp only [matchedIndices] at hi
  have hlt : i < colnames.length := List.mem_range.mp (List.mem_of_mem_filter hi)
  have hlt2 : i < collastmod.length := lt_of_lt_of_le hlt hlen
  exact ⟨collastmod.get ⟨i, hlt2⟩, List.get?_eq_get hlt2⟩

/-- Witness for C8 amended on an aligned one-row listing. -/
theorem claim8_amended_witness :
    ∃ lm, ([String.toList "2018-10-15 09:00"].get? 0 : Option (List Char)) = some lm :=
  claim8_amended
    (fun f => fileMatch (String.toList "ATL06") [235] [2] [1]
      (String.toList "003") false f)
    [String.toList "ATL06_20181014001049_02350102_003_01.h5"]
    [String.toList "2018-10-15 09:00"]
    (by decide) 0 (by decide)

/-! ### Last-modified parsing -/

theorem digitChar_props (k : Nat) (h : k < 10) :
    (digitChar k).isDigit = true ∧ isWSChar (digitChar k) = false ∧
      digitVal (digitChar k) = k := by
  interval_cases k <;> exact ⟨by decide, by decide, by decide⟩

theorem rstrip_append_nonws (l : List Char) (c : Char) (h : isWSChar c = false) :
    rstrip (l ++ [c]) = l ++ [c] := by
  unfold rstrip
  rw [List.reverse_append]
  have h1 : ([c].reverse : List Char) = [c] := rfl
  rw [h1]
  simp [List.dropWhile_cons, h]

theorem formatLastMod_split (Y M D H Mi : Nat) :
    formatLastMod Y M D H Mi =
      (fix4 Y ++ '-' :: (fix2 M ++ '-' :: (fix2 D ++ ' ' :: (fix2 H ++
        [':', digitChar (Mi / 10 % 10)])))) ++ [digitChar (Mi % 10)] := by
  simp [formatLastMod, fix2, fix4]

theorem rstrip_formatLastMod (Y M D H Mi : Nat) :
    rstrip (formatLastMod Y M D H Mi) = formatLastMod Y M D H Mi := by
  conv_lhs => rw [formatLastMod_split]
  rw [rstrip_append_nonws _ _
    (digitChar_props (Mi % 10) (Nat.mod_lt _ (by omega))).2.1]
  rw [← formatLastMod_split]

theorem parse_format (Y M D H Mi : Nat) (hY : Y ≤ 9999)
    (hM1 : 1 ≤ M) (hM2 : M ≤ 12) (hD1 : 1 ≤ D) (hD2 : D ≤ 31)
    (hH : H ≤ 23) (hMi : Mi ≤ 59) :
    parseLastMod (formatLastMod Y M D H Mi) = some (utcEpoch Y M D H Mi) := by
  have hdig : ∀ n : Nat, (digitChar (n % 10)).isDigit = true := fun n =>
    (digitChar_props _ (Nat.mod_lt _ (by omega))).1
  have hval : ∀ n : Nat, digitVal (digitChar (n % 10)) = n % 10 := fun n =>
    (digitChar_props _ (Nat.mod_lt _ (by omega))).2.2
  have hfix : formatLastMod Y M D H Mi =
      [digitChar (Y / 1000 % 10), digitChar (Y / 100 % 10), digitChar (Y / 10 % 10),
       digitChar (Y % 10), '-', digitChar (M / 10 % 10), digitChar (M % 10), '-',
       digitChar (D / 10 % 10), digitChar (D % 10), ' ', digitChar (H / 10 % 10),
       digitChar (H % 10), ':', digitChar (Mi / 10 % 10), digitChar (Mi % 10)] := by
    simp [formatLastMod, fix2, fix4]
  rw [parseLastMod, rstrip_formatLastMod, hfix]
  simp only [parseLastModCore, hdig, Bool.and_self, if_true]
  rw [if_pos]
  · simp only [hval]
    have hYv : ((Y / 1000 % 10 * 10 + Y / 100 % 10) * 10 + Y / 10 % 10) * 10 + Y % 10 = Y := by
      omega
    have hMv : M / 10 % 10 * 10 + M % 10 = M := by omega
    have hDv : D / 10 % 10 * 10 + D % 10 = D := by omega
    have hHv : H / 10 % 10 * 10 + H % 10 = H := by omega
    have hMiv : Mi / 10 % 10 * 10 + Mi % 10 = Mi := by omega
    rw [hYv, hMv, hDv, hHv, hMiv]
  · simp only [hval]
    omega

/-- C9: every last-modified text of the form YYYY-MM-DD HH:MM (fields in
strptime ranges, year from 1970 on) is parsed as a UTC time and converted
to Unix epoch seconds; in particular 2018-10-15 09:00 yields 1539594000,
the epoch seconds of 2018-10-15T09:00:00Z, and a live pull stamps the
transferred file with exactly that value as its local modification time. -/
theorem claim9_utc_parse :
    (∀ Y M D H Mi : Nat, 1970 ≤ Y → Y ≤ 9999 → 1 ≤ M → M ≤ 12 →
      1 ≤ D → D ≤ 31 → H ≤ 23 → Mi ≤ 59 →
      parseLastMod (formatLastMod Y M D H Mi) = some (utcEpoch Y M D H Mi)) ∧
    parseLastMod (String.toList "2018-10-15 09:00") = some 1539594000 ∧
    (http_pull_file none 1539594000 false false).state = some 1539594000 := by
  refine ⟨fun Y M D H Mi _ hY hM1 hM2 hD1 hD2 hH hMi =>
    parse_format Y M D H Mi hY hM1 hM2 hD1 hD2 hH hMi, ?_, rfl⟩
  decide

/-- Witness for C9 at the end-to-end scenario timestamp. -/
theorem claim9_witness :
    parseLastMod (formatLastMod 2018 10 15 9 0) = some (utcEpoch 2018 10 15 9 0) :=
  claim9_utc_parse.1 2018 10 15 9 0 (by decide) (by decide) (by decide) (by decide)
    (by decide) (by decide) (by decide) (by decide)
